import Mathlib

/-!
Verification development for the email-validator program (`email_check.py`).

The Python source is shallowly embedded below.  Clock readings are modelled
as exact rational numbers, the DNS resolver is modelled as an oracle value
describing what `dns.resolver.Resolver.resolve` would do for one query
(either return a list of record strings or raise one of the library's
exceptions), and the rate limiter is a pure state-passing function.
-/

/-! ## RateLimiter (email_check.py, lines 47-80) -/

/-- The filter predicate `current_time - t < 1.0` used to prune the
request-timestamp window. -/
def inWindow (now t : ℚ) : Bool := decide (now - t < 1)

/-- Pruning: `self.requests = [t for t in self.requests if current_time - t < 1.0]`
(lines 62, 71, 79). -/
def pruneReqs (reqs : List ℚ) (now : ℚ) : List ℚ := reqs.filter (inWindow now)

/-- Embeds `RateLimiter.wait` (lines 54-74).  State is the list of retained
timestamps; `now` is the value of `time.time()` at entry.  Sleeping is
modelled ideally: after `time.sleep(d)` the clock reads `now + d`.  The
result is the new timestamp list and the clock value at return. -/
def RateLimiter.wait (c : Int) (reqs : List ℚ) (now : ℚ) : List ℚ × ℚ :=
  if c ≤ 0 then (reqs, now)
  else if c ≤ ((pruneReqs reqs now).length : ℤ) then
    match pruneReqs reqs now with
    | [] => (pruneReqs reqs now ++ [now], now)
    | oldest :: _ =>
      if 0 < 1 - (now - oldest) then
        (pruneReqs (pruneReqs reqs now) (now + (1 - (now - oldest)))
           ++ [now + (1 - (now - oldest))],
         now + (1 - (now - oldest)))
      else (pruneReqs reqs now ++ [now], now)
  else (pruneReqs reqs now ++ [now], now)

/-- A single-threaded sequence of `wait()` calls: each list entry is the
(nonnegative) delay between the return of one call and the start of the
next.  Returns the final timestamp window, the clock value at the last
return, and the list of all admitted timestamps (each call appends exactly
one timestamp when the ceiling is positive; the recorded value is the clock
at that call's return). -/
def runWaits (c : Int) : List ℚ → List ℚ → ℚ → List ℚ × ℚ × List ℚ
  | [], reqs, now => (reqs, now, [])
  | d :: ds, reqs, now =>
    let w := RateLimiter.wait c reqs (now + d)
    let r := runWaits c ds w.1 w.2
    (r.1, r.2.1, w.2 :: r.2.2)

/-! ## String helpers mirroring the Python primitives used by the source -/

/-- Characters removed by Python `str.strip()` (ASCII whitespace together
with `\x85` and `\xa0`; the remaining Unicode space code points, irrelevant
to every claim, are omitted from the model). -/
def pyWhitespaceChar (c : Char) : Bool :=
  c = ' ' || c = '\t' || c = '\n' || c = '\x0b' || c = '\x0c' || c = '\r' ||
  c = '\x1c' || c = '\x1d' || c = '\x1e' || c = '\x1f' || c = '\x85' || c = '\xa0'

/-- Python `str.strip()` on a character list. -/
def pyStripList (l : List Char) : List Char :=
  ((l.dropWhile pyWhitespaceChar).reverse.dropWhile pyWhitespaceChar).reverse

/-- The `email.strip()` call (line 114). -/
def pyStrip (s : String) : String := String.mk (pyStripList s.toList)

/-- Python `str.split(sep)` for a one-character separator, e.g.
`email.split('@')` (line 127) and `domain.split('.')` (line 186). -/
def splitOnChar (sep : Char) : List Char → List (List Char)
  | [] => [[]]
  | c :: rest =>
    let r := splitOnChar sep rest
    if c = sep then [] :: r
    else
      match r with
      | [] => [[c]]
      | h :: t => (c :: h) :: t

/-- Python `str.rstrip` with argument `'.'`: remove every trailing dot (line 211). -/
def rstripDots (s : String) : String :=
  String.mk (s.toList.reverse.dropWhile (fun c => c = '.')).reverse

/-- Python's `$` anchor also matches just before one newline at the very end
of the string, so `re.match` of an `^...$` pattern whose character classes
cannot consume a newline accepts `text ++ "\n"` whenever it accepts `text`.
This helper removes that single optional trailing newline. -/
def stripTrailingNl (l : List Char) : List Char :=
  match l.getLast? with
  | some c => if c = '\n' then l.dropLast else l
  | none => l

/-- The `'--' in part` test (line 200): the list contains two adjacent hyphens. -/
def hasDoubleHyphen : List Char → Bool
  | c1 :: c2 :: rest => (c1 = '-' && c2 = '-') || hasDoubleHyphen (c2 :: rest)
  | _ => false

/-- The regex class `[a-zA-Z0-9]`. -/
def isAlnumChar (c : Char) : Bool := c.isAlpha || c.isDigit

/-- The local-part class of `EMAIL_REGEX` (line 88). -/
def isLocalChar (c : Char) : Bool :=
  isAlnumChar c || c = '.' || c = '!' || c = '#' || c = '$' || c = '%' ||
  c = '&' || c = Char.ofNat 39 || c = '*' || c = '+' || c = '/' || c = '=' ||
  c = '?' || c = '^' || c = '_' || c = Char.ofNat 96 || c = Char.ofNat 123 ||
  c = '|' || c = Char.ofNat 125 || c = '~' || c = '-'

/-- The domain-part class `[a-zA-Z0-9-]` of `EMAIL_REGEX`. -/
def isDomainChar (c : Char) : Bool := isAlnumChar c || c = '-'

/-- Interior-then-final part of the label pattern: every character but the
last is `[a-zA-Z0-9-]`, the last is `[a-zA-Z0-9]`. -/
def labelMiddleOk : List Char → Bool
  | [] => true
  | [c] => isAlnumChar c
  | c :: rest => (isAlnumChar c || c = '-') && labelMiddleOk rest

/-- Exact-anchoring core of the label regex
`^[a-zA-Z0-9]([a-zA-Z0-9-]*[a-zA-Z0-9])?$` (line 196). -/
def matchesLabelCore : List Char → Bool
  | [] => false
  | c :: rest => isAlnumChar c && (rest.isEmpty || labelMiddleOk rest)

/-- Python `re.match` of the label regex, including the `$`-before-trailing-newline
behaviour of Python regular expressions. -/
def labelRegexMatch (part : List Char) : Bool :=
  matchesLabelCore (stripTrailingNl part)

/-- Core of the domain half of `EMAIL_REGEX`:
`[a-zA-Z0-9-]+(?:\.[a-zA-Z0-9-]+)*` matched against the whole list. -/
def matchesDomainPart (d : List Char) : Bool :=
  (splitOnChar '.' d).all (fun p => !p.isEmpty && p.all isDomainChar)

/-- Exact-anchoring core of `EMAIL_REGEX` (lines 87-89): one `@`, a
nonempty local part over the local class, and a well-formed domain part. -/
def matchesEmailCore (l : List Char) : Bool :=
  match splitOnChar '@' l with
  | [lo, d] => !lo.isEmpty && lo.all isLocalChar && matchesDomainPart d
  | _ => false

/-- The value `bool(EMAIL_REGEX.match(email))`, including the `$`-before-trailing-
newline behaviour of Python regular expressions. -/
def EMAIL_REGEX_match (s : String) : Bool :=
  matchesEmailCore (stripTrailingNl s.toList)

/-- Embeds `EmailValidator._is_valid_syntax` (lines 175-177). -/
def is_valid_syntax (email : String) : Bool := EMAIL_REGEX_match email

/-- Embeds `EmailValidator._is_valid_domain_syntax` (lines 179-203). -/
def is_valid_domain_syntax (domain : String) : Bool :=
  if 253 < domain.length then false
  else
    let parts := splitOnChar '.' domain.toList
    if parts.length < 2 then false
    else
      parts.all (fun part =>
        !(part.isEmpty || decide (63 < part.length)) &&
        labelRegexMatch part &&
        !(hasDoubleHyphen part))

/-! ## The resolver oracle and the classifier -/

/-- The dnspython exceptions distinguished by the source (`NXDOMAIN`,
`NoNameservers`, `Timeout`, `NoAnswer`) plus `other` for any further
exception, carrying its `str(e)` text. -/
inductive DnsExc where
  | nxdomain
  | noNameservers
  | timeout
  | noAnswer
  | other (msg : String)
deriving DecidableEq

/-- What one call of `self.resolver.resolve(domain, rtype)` does: return a
list of record strings (`str(rdata.exchange)` for MX) or raise an
exception. -/
inductive DnsOutcome where
  | found (hosts : List String)
  | raise (e : DnsExc)
deriving DecidableEq

/-- Models `str(e)` for a resolver exception.  Only the `other` case is ever
interpolated into a message on a reachable path of the source; for the four
library exceptions a fixed tag stands in for the library's text. -/
def excMsg : DnsExc → String
  | .nxdomain => "NXDOMAIN"
  | .noNameservers => "NoNameservers"
  | .timeout => "Timeout"
  | .noAnswer => "NoAnswer"
  | .other msg => msg

/-- Statuses of `EmailStatus` (lines 25-31). -/
inductive EmailStatus where
  | valid_domain
  | no_domain
  | no_mx
  | dns_error
  | unknown
deriving DecidableEq

/-- The `EmailResult` dataclass (lines 34-44); `mx_records = None` is
normalised to `[]` by `__post_init__`, so the field is a plain list here. -/
structure EmailResult where
  email : String
  status : EmailStatus
  mx_records : List String
  error : Option String
deriving DecidableEq

/-- Embeds `EmailValidator._check_mx_records` (lines 205-214): on answers it
returns the exchanges with trailing dots stripped, a `NoAnswer` raised by
`resolve` is caught and becomes `[]`, and every other exception
propagates. -/
def check_mx_records (mxResp : DnsOutcome) : Except DnsExc (List String) :=
  match mxResp with
  | .found hosts => .ok (hosts.map rstripDots)
  | .raise .noAnswer => .ok []
  | .raise e => .error e

/-- Embeds `EmailValidator.check_email` (lines 104-173) together with the
number of `RateLimiter.wait()` calls it performs.  `mxResp` is what the
resolver does for the MX query, `aResp` what it does for the A query (the
latter is consulted only on the `NoAnswer` fallback path). -/
def check_emailR (email : String) (mxResp aResp : DnsOutcome) : EmailResult × Nat :=
  let e := pyStrip email
  if e.toList.isEmpty then (⟨e, .no_domain, [], some "Пустая строка"⟩, 0)
  else if is_valid_syntax e then
    match (splitOnChar '@' e.toList).get? 1 with
    | some domainL =>
      if is_valid_domain_syntax (String.mk domainL) then
        match check_mx_records mxResp with
        | .ok mx =>
          if mx.isEmpty then (⟨e, .no_mx, [], some "MX записи не найдены"⟩, 1)
          else (⟨e, .valid_domain, mx, none⟩, 1)
        | .error .nxdomain =>
          (⟨e, .no_domain, [], some "Домен не существует (NXDOMAIN)"⟩, 1)
        | .error .noNameservers =>
          (⟨e, .dns_error, [], some "Нет доступных DNS серверов"⟩, 1)
        | .error .timeout =>
          (⟨e, .dns_error, [], some "Таймаут DNS запроса"⟩, 1)
        | .error .noAnswer =>
          match aResp with
          | .found _ => (⟨e, .no_mx, [], some "Есть A запись, но нет MX записей"⟩, 2)
          | .raise .nxdomain => (⟨e, .no_domain, [], some "Домен не существует"⟩, 2)
          | .raise ex =>
            (⟨e, .unknown, [], some ("Ошибка при проверке A записи: " ++ excMsg ex)⟩, 2)
        | .error (.other m) =>
          (⟨e, .unknown, [], some ("Неизвестная ошибка: " ++ m)⟩, 1)
      else (⟨e, .no_domain, [], some "Некорректный синтаксис домена"⟩, 0)
    | none => (⟨e, .no_domain, [], some "Отсутствует символ @ или домен"⟩, 0)
  else (⟨e, .no_domain, [], some "Некорректный синтаксис email"⟩, 0)

/-- The result value of `check_email` (the spec's `classify`). -/
def check_email (email : String) (mxResp aResp : DnsOutcome) : EmailResult :=
  (check_emailR email mxResp aResp).1

/-- True when the input reaches step 5 of `check_email` (the DNS lookups):
nonempty after stripping, address syntax accepted, a domain segment
extractable, and the domain syntax accepted. -/
def reachesDns (email : String) : Bool :=
  let e := pyStrip email
  !e.toList.isEmpty && is_valid_syntax e &&
    (match (splitOnChar '@' e.toList).get? 1 with
     | some domainL => is_valid_domain_syntax (String.mk domainL)
     | none => false)

/-! ## Batch driver -/

/-- What the loop body of `process_emails` (lines 307-332) does for one
address: complete normally with `check_email`'s result, raise
`KeyboardInterrupt` (the cancellation signal, `cancel = true`), or raise
some other exception whose `str(e)` is `msg`. -/
inductive ProcBehavior where
  | ret (r : EmailResult)
  | raise (cancel : Bool) (msg : String)
deriving DecidableEq

/-- The cancellation signal (`KeyboardInterrupt`). -/
def isCancel : ProcBehavior → Bool
  | .raise true _ => true
  | _ => false

/-- The outcome recorded for one address by `process_emails` when the batch
is not aborted. -/
def procOutcome : String × ProcBehavior → EmailResult
  | (_, .ret r) => r
  | (email, .raise _ msg) =>
    ⟨email, .unknown, [], some ("Ошибка при обработке: " ++ msg)⟩

/-- Embeds `process_emails` (lines 301-335): one result per address in input
order; a `KeyboardInterrupt` aborts via `sys.exit(1)` (modelled by
`Except.error ()`); any other exception is recorded as an `UNKNOWN` result
for that address and processing continues. -/
def process_emails : List (String × ProcBehavior) → Except Unit (List EmailResult)
  | [] => .ok []
  | (email, b) :: rest =>
    match b with
    | .ret r =>
      match process_emails rest with
      | .ok rs => .ok (r :: rs)
      | .error u => .error u
    | .raise cancel msg =>
      if cancel then .error ()
      else
        match process_emails rest with
        | .ok rs =>
          .ok (⟨email, .unknown, [], some ("Ошибка при обработке: " ++ msg)⟩ :: rs)
        | .error u => .error u

/-! ## Spec-side definition for the domain-syntax claim -/

/-- Rejection condition of `isValidDomainSyntax` as the spec words it:
total length over 253, fewer than two labels, or some label empty, longer
than 63, containing `--`, or failing the label pattern read with exact
anchoring (start and end alphanumeric, only alphanumerics and hyphens
inside).  Written from the spec's words, for comparison with
`is_valid_domain_syntax`. -/
def specDomainReject (domain : String) : Bool :=
  decide (253 < domain.length) ||
  decide ((splitOnChar '.' domain.toList).length < 2) ||
  (splitOnChar '.' domain.toList).any (fun part =>
    part.isEmpty || decide (63 < part.length) || hasDoubleHyphen part ||
    !(matchesLabelCore part))

/-! ## Lemmas about the rate limiter -/

theorem inWindow_iff {now t : ℚ} : inWindow now t = true ↔ now - t < 1 := by
  simp [inWindow]

theorem mem_prune {reqs : List ℚ} {now x : ℚ} (h : x ∈ pruneReqs reqs now) :
    x ∈ reqs ∧ now - x < 1 := by
  rw [pruneReqs, List.mem_filter] at h
  exact ⟨h.1, inWindow_iff.mp h.2⟩

theorem prune_prune (reqs : List ℚ) {T T2 : ℚ} (h : T ≤ T2) :
    pruneReqs (pruneReqs reqs T) T2 = pruneReqs reqs T2 := by
  unfold pruneReqs
  rw [List.filter_filter]
  refine List.filter_congr (fun x _ => ?_)
  cases h2 : inWindow T2 x with
  | true =>
    have hx2 : T2 - x < 1 := inWindow_iff.mp h2
    have hx : inWindow T x = true := inWindow_iff.mpr (by linarith)
    simp [hx]
  | false => simp

theorem wait_step (c : Int) (hc : 0 < c) (st : List ℚ) (T : ℚ)
    (_hle : ∀ x ∈ st, x ≤ T) (hlen : (st.length : ℤ) ≤ c) :
    T ≤ (RateLimiter.wait c st T).2 ∧
    (RateLimiter.wait c st T).1 =
      pruneReqs st (RateLimiter.wait c st T).2 ++ [(RateLimiter.wait c st T).2] ∧
    (((RateLimiter.wait c st T).1.length : ℤ) ≤ c) := by
  unfold RateLimiter.wait
  rw [if_neg (by omega : ¬ c ≤ 0)]
  by_cases hfull : c ≤ ((pruneReqs st T).length : ℤ)
  · rw [if_pos hfull]
    split
    case _ heq =>
      exfalso
      rw [heq] at hfull
      simp at hfull
      omega
    case _ oldest tail heq =>
      have holdmem : oldest ∈ pruneReqs st T := by
        rw [heq]; exact List.mem_cons_self _ _
      have holdw : T - oldest < 1 := (mem_prune holdmem).2
      have hsleep : (0:ℚ) < 1 - (T - oldest) := by linarith
      rw [if_pos hsleep]
      refine ⟨show T ≤ T + (1 - (T - oldest)) by linarith, ?_, ?_⟩
      · show pruneReqs (pruneReqs st T) (T + (1 - (T - oldest)))
            ++ [T + (1 - (T - oldest))]
          = pruneReqs st (T + (1 - (T - oldest))) ++ [T + (1 - (T - oldest))]
        rw [prune_prune st (by linarith : T ≤ T + (1 - (T - oldest)))]
      · have hfalse : inWindow (T + (1 - (T - oldest))) oldest = false := by
          simp [inWindow]
          linarith
        have hcut : pruneReqs (pruneReqs st T) (T + (1 - (T - oldest)))
            = List.filter (inWindow (T + (1 - (T - oldest)))) tail := by
          rw [heq]
          show List.filter _ (oldest :: tail) = _
          rw [List.filter_cons_of_neg]
          simp [hfalse]
        have h1 : (List.filter (inWindow (T + (1 - (T - oldest)))) tail).length
            ≤ tail.length := List.length_filter_le _ _
        have h2 : (oldest :: tail).length ≤ st.length := by
          rw [← heq]; exact List.length_filter_le _ _
        show ((pruneReqs (pruneReqs st T) (T + (1 - (T - oldest)))
            ++ [T + (1 - (T - oldest))]).length : ℤ) ≤ c
        simp only [hcut, List.length_append, List.length_cons, List.length_nil,
          List.length_singleton] at *
        push_cast
        omega
  · rw [if_neg hfull]
    refine ⟨le_refl _, rfl, ?_⟩
    have : ((pruneReqs st T).length : ℤ) < c := by omega
    simp only [List.length_append, List.length_cons, List.length_nil]
    push_cast
    omega

theorem runWaits_inv (c : Int) (hc : 0 < c) (ds : List ℚ) :
    ∀ st T, (∀ d ∈ ds, 0 ≤ d) → (∀ x ∈ st, x ≤ T ∧ T - x < 1) →
      ((st.length : ℤ) ≤ c) →
      (∀ x ∈ (runWaits c ds st T).1,
          x ≤ (runWaits c ds st T).2.1 ∧ (runWaits c ds st T).2.1 - x < 1) ∧
      (((runWaits c ds st T).1.length : ℤ) ≤ c) ∧
      T ≤ (runWaits c ds st T).2.1 ∧
      (((st ++ (runWaits c ds st T).2.2).filter
          (inWindow (runWaits c ds st T).2.1)).length
        ≤ (runWaits c ds st T).1.length) := by
  induction ds with
  | nil =>
    intro st T _ hwin hlen
    refine ⟨hwin, hlen, le_refl _, ?_⟩
    simp only [runWaits, List.append_nil]
    rw [List.filter_eq_self.mpr (fun a ha => inWindow_iff.mpr (hwin a ha).2)]
  | cons d ds ih =>
    intro st T hd hwin hlen
    have hd0 : (0:ℚ) ≤ d := hd d (List.mem_cons_self _ _)
    have hstep := wait_step c hc st (T + d)
      (fun x hx => le_trans (hwin x hx).1 (by linarith)) hlen
    obtain ⟨hTret, hshape, hlen1⟩ := hstep
    have hwin1 : ∀ x ∈ (RateLimiter.wait c st (T + d)).1,
        x ≤ (RateLimiter.wait c st (T + d)).2 ∧
        (RateLimiter.wait c st (T + d)).2 - x < 1 := by
      intro x hx
      rw [hshape, List.mem_append] at hx
      rcases hx with hx | hx
      · obtain ⟨hxs, hxw⟩ := mem_prune hx
        exact ⟨le_trans (hwin x hxs).1 (by linarith), hxw⟩
      · rw [List.mem_singleton] at hx
        subst hx
        exact ⟨le_refl _, by norm_num⟩
    have hrest := ih (RateLimiter.wait c st (T + d)).1 (RateLimiter.wait c st (T + d)).2
      (fun d' hd' => hd d' (List.mem_cons_of_mem _ hd')) hwin1 hlen1
    obtain ⟨ih1, ih2, ih3, ih4⟩ := hrest
    simp only [runWaits]
    set r1 := runWaits c ds (RateLimiter.wait c st (T + d)).1
      (RateLimiter.wait c st (T + d)).2 with hr1
    refine ⟨ih1, ih2, by linarith, ?_⟩
    rw [hshape, List.append_assoc, List.singleton_append] at ih4
    have hfil : List.filter (inWindow r1.2.1) st
        = List.filter (inWindow r1.2.1)
            (pruneReqs st (RateLimiter.wait c st (T + d)).2) := by
      show pruneReqs st _ = pruneReqs (pruneReqs st _) _
      rw [prune_prune st ih3]
    rw [List.filter_append, hfil, ← List.filter_append]
    exact ih4

/-! ## Claim theorems -/

/-- C2: for every ceiling `c > 0` and every single-threaded sequence of
`wait()` calls (nonnegative delays between them), at the moment the last
call returns, the number of admitted timestamps lying within the trailing
1-second window is at most `c`.  Quantifying over all delay lists covers
the moment every call returns, since each call is the last call of the run
over a prefix. -/
theorem rateLimiter_window_bound (c : Int) (hc : 0 < c) (t0 : ℚ) (deltas : List ℚ)
    (hdel : ∀ d ∈ deltas, 0 ≤ d) :
    ((((runWaits c deltas [] t0).2.2).filter
        (inWindow (runWaits c deltas [] t0).2.1)).length : ℤ) ≤ c := by
  have h := runWaits_inv c hc deltas [] t0 hdel (by intro x hx; cases hx)
    (by simp; omega)
  obtain ⟨-, h2, -, h4⟩ := h
  rw [List.nil_append] at h4
  omega

/-- Witness for C2 at ceiling 1, two back-to-back calls. -/
theorem rateLimiter_window_bound_witness :
    ((((runWaits 1 [0, 0] [] 0).2.2).filter
        (inWindow (runWaits 1 [0, 0] [] 0).2.1)).length : ℤ) ≤ 1 :=
  rateLimiter_window_bound 1 (by decide) 0 [0, 0] (by decide)

/-- C8: for every ceiling `c ≤ 0`, `wait()` returns immediately (the clock
at return equals the clock at entry, so no sleep occurs), performs no
pruning and records no timestamp: the state is returned unchanged,
whatever it is and whatever the current time. -/
theorem wait_disabled (c : Int) (hc : c ≤ 0) (reqs : List ℚ) (now : ℚ) :
    RateLimiter.wait c reqs now = (reqs, now) := by
  unfold RateLimiter.wait
  rw [if_pos hc]

/-- Witness for C8 at ceiling 0 with a pending stale timestamp. -/
theorem wait_disabled_witness :
    RateLimiter.wait 0 [(1 : ℚ)] 5 = ([(1 : ℚ)], 5) :=
  wait_disabled 0 (by decide) [(1 : ℚ)] 5

/-- C1 (code bug): for an address that passes all syntax checks and whose
MX lookup raises `NoAnswer`, `check_email` does NOT gate a second time and
does NOT resolve an A record: `_check_mx_records` itself catches
`NoAnswer` and returns `[]`, so the `except dns.resolver.NoAnswer` branch
of `check_email` (lines 156-170) is unreachable.  The call returns `NO_MX`
with detail "MX записи не найдены" after exactly one `wait()` call, even
though an A record exists. -/
theorem checkEmail_noAnswer_no_fallback :
    check_emailR "user@example.com" (.raise .noAnswer) (.found ["93.184.216.34"]) =
      (⟨"user@example.com", .no_mx, [], some "MX записи не найдены"⟩, 1) := by
  rfl

/-- C10: `rstrip('.')` removes all trailing dots, so an MX answer whose
exchange is the root `"."` contributes the empty string to `mx_records`
while the status is still `VALID_DOMAIN` (the host list `[""]` is a
nonempty Python list, hence truthy). -/
theorem validDomain_empty_host_entry :
    check_email "user@example.com" (.found ["."]) (.raise (.other "unused")) =
      ⟨"user@example.com", .valid_domain, [""], none⟩ ∧
    rstripDots "." = "" ∧ rstripDots "..." = "" := by
  refine ⟨rfl, rfl, rfl⟩

/-- Unpacks the guard conditions under which `check_email` reaches its DNS
step. -/
theorem reachesDns_unpack {email : String} (h : reachesDns email = true) :
    ¬(pyStrip email).data = [] ∧
    is_valid_syntax (pyStrip email) = true ∧
    ∃ domainL, (splitOnChar '@' (pyStrip email).data)[1]? = some domainL ∧
      is_valid_domain_syntax (String.mk domainL) = true := by
  simp only [reachesDns, Bool.and_eq_true] at h
  obtain ⟨⟨h1, h2⟩, h3⟩ := h
  refine ⟨by simpa using h1, h2, ?_⟩
  cases hd : (splitOnChar '@' (pyStrip email).toList).get? 1 with
  | none => rw [hd] at h3; simp at h3
  | some d =>
    refine ⟨d, by simpa using hd, ?_⟩
    rw [hd] at h3
    simpa using h3

/-- C3: every result produced by `check_email` satisfies the `EmailResult`
invariant: status is `VALID_DOMAIN` iff `mx_records` is nonempty, and
every non-`VALID_DOMAIN` result has its detail string set. -/
theorem emailResult_status_invariant (email : String) (mxResp aResp : DnsOutcome) :
    ((check_email email mxResp aResp).status = .valid_domain ↔
      (check_email email mxResp aResp).mx_records ≠ []) ∧
    ((check_email email mxResp aResp).status ≠ .valid_domain →
      (check_email email mxResp aResp).error ≠ none) := by
  by_cases h1 : (pyStrip email).data = []
  · simp [check_email, check_emailR, h1]
  · by_cases h2 : is_valid_syntax (pyStrip email) = true
    · cases hd : (splitOnChar '@' (pyStrip email).data)[1]? with
      | none => simp [check_email, check_emailR, h1, h2, hd]
      | some domainL =>
        by_cases h4 : is_valid_domain_syntax (String.mk domainL) = true
        · cases mxResp with
          | found hosts =>
            by_cases h5 : hosts.map rstripDots = []
            · simp [check_email, check_emailR, check_mx_records, h1, h2, hd, h4, h5]
            · simp [check_email, check_emailR, check_mx_records, h1, h2, hd, h4, h5]
          | raise ex =>
            cases ex with
            | noAnswer =>
              cases aResp with
              | found ahosts =>
                simp [check_email, check_emailR, check_mx_records, h1, h2, hd, h4]
              | raise ex2 =>
                cases ex2 <;>
                  simp [check_email, check_emailR, check_mx_records, h1, h2, hd, h4]
            | nxdomain =>
              simp [check_email, check_emailR, check_mx_records, h1, h2, hd, h4]
            | noNameservers =>
              simp [check_email, check_emailR, check_mx_records, h1, h2, hd, h4]
            | timeout =>
              simp [check_email, check_emailR, check_mx_records, h1, h2, hd, h4]
            | other m =>
              simp [check_email, check_emailR, check_mx_records, h1, h2, hd, h4]
        · simp [check_email, check_emailR, h1, h2, hd, h4]
    · simp [check_email, check_emailR, h1, h2]

/-- Witness for C3 on a concrete successful classification. -/
theorem emailResult_status_invariant_witness :
    ((check_email "user@example.com" (.found ["mail.example.com."]) (.raise .nxdomain)).status
        = .valid_domain ↔
      (check_email "user@example.com" (.found ["mail.example.com."]) (.raise .nxdomain)).mx_records
        ≠ []) ∧
    ((check_email "user@example.com" (.found ["mail.example.com."]) (.raise .nxdomain)).status
        ≠ .valid_domain →
      (check_email "user@example.com" (.found ["mail.example.com."]) (.raise .nxdomain)).error
        ≠ none) :=
  emailResult_status_invariant "user@example.com" (.found ["mail.example.com."]) (.raise .nxdomain)

/-- C7: for every address that reaches the DNS step and whose MX lookup
returns at least one host, `check_email` returns `VALID_DOMAIN` with
`mx_records` equal to the returned host names with trailing dots
stripped. -/
theorem checkEmail_mx_found_valid (email : String) (hosts : List String)
    (aResp : DnsOutcome) (h : reachesDns email = true) (hne : hosts ≠ []) :
    (check_email email (.found hosts) aResp).status = .valid_domain ∧
    (check_email email (.found hosts) aResp).mx_records = hosts.map rstripDots := by
  obtain ⟨h1, h2, domainL, hd, h4⟩ := reachesDns_unpack h
  have hne2 : ¬hosts.map rstripDots = [] := by
    cases hosts with
    | nil => exact absurd rfl hne
    | cons a l => simp
  simp [check_email, check_emailR, h1, h2, hd, h4, check_mx_records, hne2]

/-- Witness for C7: the spec's Example 3, `["mail.example.com."]` yields
`mxHosts = ["mail.example.com"]`. -/
theorem checkEmail_mx_found_valid_witness :
    reachesDns "user@example.com" = true ∧
    (check_email "user@example.com" (.found ["mail.example.com."]) (.raise .nxdomain)).status
      = .valid_domain ∧
    (check_email "user@example.com" (.found ["mail.example.com."]) (.raise .nxdomain)).mx_records
      = ["mail.example.com"] :=
  ⟨by rfl,
   (checkEmail_mx_found_valid "user@example.com" ["mail.example.com."] (.raise .nxdomain)
      (by rfl) (by simp)).1,
   ((checkEmail_mx_found_valid "user@example.com" ["mail.example.com."] (.raise .nxdomain)
      (by rfl) (by simp)).2).trans (by rfl)⟩

/-- C4: `check_email` never lets a resolver failure on the MX lookup
escape: NXDOMAIN maps to `NO_DOMAIN` (detail contains "NXDOMAIN", one
`wait()` call), `NoNameservers` and `Timeout` map to `DNS_ERROR`, and any
other resolver exception maps to `UNKNOWN` with the underlying message
appended to the detail (all with exactly one `wait()` call). -/
theorem checkEmail_first_lookup_failures (email : String) (aResp : DnsOutcome)
    (m : String) (h : reachesDns email = true) :
    (check_emailR email (.raise .nxdomain) aResp =
      (⟨pyStrip email, .no_domain, [], some "Домен не существует (NXDOMAIN)"⟩, 1)) ∧
    ("Домен не существует (NXDOMAIN)" = "Домен не существует (" ++ "NXDOMAIN" ++ ")") ∧
    (check_emailR email (.raise .noNameservers) aResp =
      (⟨pyStrip email, .dns_error, [], some "Нет доступных DNS серверов"⟩, 1)) ∧
    (check_emailR email (.raise .timeout) aResp =
      (⟨pyStrip email, .dns_error, [], some "Таймаут DNS запроса"⟩, 1)) ∧
    (check_emailR email (.raise (.other m)) aResp =
      (⟨pyStrip email, .unknown, [], some ("Неизвестная ошибка: " ++ m)⟩, 1)) := by
  obtain ⟨h1, h2, domainL, hd, h4⟩ := reachesDns_unpack h
  refine ⟨?_, rfl, ?_, ?_, ?_⟩ <;>
    simp [check_emailR, h1, h2, hd, h4, check_mx_records]

/-- Witness for C4: the spec's Example 5 (NXDOMAIN on the first lookup). -/
theorem checkEmail_first_lookup_failures_witness :
    reachesDns "user@example.com" = true ∧
    check_emailR "user@example.com" (.raise .nxdomain) (.raise .nxdomain) =
      (⟨"user@example.com", .no_domain, [], some "Домен не существует (NXDOMAIN)"⟩, 1) :=
  ⟨by rfl,
   ((checkEmail_first_lookup_failures "user@example.com" (.raise .nxdomain) "m"
      (by rfl)).1).trans (by rfl)⟩

/-- C6: with no cancellation signal among the per-address behaviours, the
batch driver returns exactly one outcome per input address in input order
(duplicates preserved); a non-cancellation exception while processing one
address becomes an `UNKNOWN` outcome for that address instead of aborting
the batch. -/
theorem processEmails_one_outcome_per_address
    (items : List (String × ProcBehavior))
    (h : items.all (fun p => !(isCancel p.2)) = true) :
    process_emails items = .ok (items.map procOutcome) ∧
    (items.map procOutcome).length = items.length := by
  refine ⟨?_, List.length_map _ _⟩
  induction items with
  | nil => rfl
  | cons p rest ih =>
    obtain ⟨pe, pb⟩ := p
    rw [List.all_cons, Bool.and_eq_true] at h
    have hrest := ih h.2
    cases pb with
    | ret r => simp [process_emails, hrest, procOutcome]
    | raise cancel msg =>
      have hcf : cancel = false := by
        cases cancel with
        | false => rfl
        | true =>
          have := h.1
          simp [isCancel] at this
      subst hcf
      simp [process_emails, hrest, procOutcome, isCancel]

/-- Witness for C6: one normal result, one non-cancellation exception. -/
theorem processEmails_one_outcome_per_address_witness :
    process_emails
        [("a@b.c", .ret ⟨"a@b.c", .no_mx, [], some "MX записи не найдены"⟩),
         ("bad", .raise false "boom")]
      = .ok [⟨"a@b.c", .no_mx, [], some "MX записи не найдены"⟩,
             ⟨"bad", .unknown, [], some "Ошибка при обработке: boom"⟩] :=
  ((processEmails_one_outcome_per_address
      [("a@b.c", .ret ⟨"a@b.c", .no_mx, [], some "MX записи не найдены"⟩),
       ("bad", .raise false "boom")] (by rfl)).1).trans (by rfl)

/-- Helper: `splitOnChar` never returns an empty list of parts. -/
theorem splitOnChar_ne_nil (sep : Char) (l : List Char) : splitOnChar sep l ≠ [] := by
  cases l with
  | nil => simp [splitOnChar]
  | cons c rest =>
    simp only [splitOnChar]
    by_cases hc : c = sep
    · simp [hc]
    · rw [if_neg hc]
      split
      · simp
      · simp

/-- The number of parts returned by `splitOnChar` is the separator count
plus one. -/
theorem splitOnChar_length (sep : Char) (l : List Char) :
    (splitOnChar sep l).length = l.count sep + 1 := by
  induction l with
  | nil => simp [splitOnChar]
  | cons c rest ih =>
    simp only [splitOnChar]
    by_cases hc : c = sep
    · subst hc
      simp [List.count_cons, ih]
    · rw [if_neg hc]
      cases hsp : splitOnChar sep rest with
      | nil => exact absurd hsp (splitOnChar_ne_nil sep rest)
      | cons h t =>
        rw [hsp] at ih
        simp [List.count_cons, hc] at ih ⊢
        omega

/-- The first element surviving `dropWhile p` falsifies `p`. -/
theorem head?_dropWhile_not (p : Char → Bool) :
    ∀ (l : List Char) (c : Char), (l.dropWhile p).head? = some c → p c = false := by
  intro l
  induction l with
  | nil => intro c h; simp at h
  | cons a rest ih =>
    intro c h
    by_cases ha : p a = true
    · rw [List.dropWhile_cons_of_pos ha] at h
      exact ih c h
    · rw [List.dropWhile_cons_of_neg ha] at h
      simp at ha h
      subst h
      exact ha

/-- Helper: `stripTrailingNl` either leaves the list alone or drops its last
element. -/
theorem stripTrailingNl_cases (l : List Char) :
    stripTrailingNl l = l ∨ stripTrailingNl l = l.dropLast := by
  unfold stripTrailingNl
  split
  · split
    · exact Or.inr rfl
    · exact Or.inl rfl
  · exact Or.inl rfl

/-- Membership is preserved from the newline-stripped list to the list. -/
theorem mem_of_mem_stripTrailingNl {c : Char} {l : List Char}
    (h : c ∈ stripTrailingNl l) : c ∈ l := by
  rcases stripTrailingNl_cases l with he | he
  · rwa [he] at h
  · rw [he] at h
    exact (List.dropLast_sublist l).subset h

/-- A stripped string never ends in whitespace, so the optional trailing
newline of the `$` anchor is absent. -/
theorem stripTrailingNl_pyStripList (l : List Char) :
    stripTrailingNl (pyStripList l) = pyStripList l := by
  unfold stripTrailingNl
  split
  case _ c hg =>
    have hc : ¬ c = '\n' := by
      intro hceq
      subst hceq
      unfold pyStripList at hg
      rw [List.getLast?_reverse] at hg
      have hfalse := head?_dropWhile_not pyWhitespaceChar _ _ hg
      simp [pyWhitespaceChar] at hfalse
    rw [if_neg hc]
  case _ => rfl

/-- A list accepted by the core of `EMAIL_REGEX` splits at `@` into exactly
two segments. -/
theorem matchesEmailCore_split {l : List Char} (h : matchesEmailCore l = true) :
    ∃ lo d, splitOnChar '@' l = [lo, d] := by
  unfold matchesEmailCore at h
  split at h
  case _ lo d heq => exact ⟨lo, d, heq⟩
  case _ => simp at h

/-- A list accepted by the core of `EMAIL_REGEX` contains an `@`. -/
theorem emailCore_mem_at {l : List Char} (h : matchesEmailCore l = true) :
    '@' ∈ l := by
  obtain ⟨lo, d, heq⟩ := matchesEmailCore_split h
  have hlen := splitOnChar_length '@' l
  rw [heq] at hlen
  simp at hlen
  have hpos : 0 < l.count '@' := by omega
  exact List.count_pos_iff.mp hpos

/-- C9: every string accepted by `EMAIL_REGEX` contains an `@`, and for a
stripped address that passes the syntax check the `split('@')[1]` domain
extraction always yields a segment, so the `IndexError` branch of
`check_email` (detail "Отсутствует символ @ или домен") is unreachable for
every input. -/
theorem emailRegex_guarantees_domain :
    (∀ s : String, EMAIL_REGEX_match s = true → '@' ∈ s.toList) ∧
    (∀ email : String, is_valid_syntax (pyStrip email) = true →
      ∃ domainL, (splitOnChar '@' (pyStrip email).toList).get? 1 = some domainL) := by
  constructor
  · intro s h
    exact mem_of_mem_stripTrailingNl (emailCore_mem_at h)
  · intro email h2
    have hcore : matchesEmailCore (pyStrip email).toList = true := by
      unfold is_valid_syntax EMAIL_REGEX_match at h2
      rwa [show stripTrailingNl (pyStrip email).toList = (pyStrip email).toList from
        stripTrailingNl_pyStripList email.toList] at h2
    obtain ⟨lo, d, heq⟩ := matchesEmailCore_split hcore
    refine ⟨d, ?_⟩
    rw [heq]
    rfl

/-- Witness for C9 on concrete accepted addresses. -/
theorem emailRegex_guarantees_domain_witness :
    ('@' ∈ "a@b.c".toList) ∧
    (∃ domainL,
      (splitOnChar '@' (pyStrip "user@example.com").toList).get? 1 = some domainL) :=
  ⟨emailRegex_guarantees_domain.1 "a@b.c" (by rfl),
   emailRegex_guarantees_domain.2 "user@example.com" (by rfl)⟩

/-- Characters of any part produced by `splitOnChar` come from the input
list. -/
theorem mem_of_mem_splitOnChar (sep : Char) :
    ∀ (l : List Char) (part : List Char), part ∈ splitOnChar sep l →
      ∀ c ∈ part, c ∈ l := by
  intro l
  induction l with
  | nil =>
    intro part hp c hc
    simp [splitOnChar] at hp
    subst hp
    simp at hc
  | cons a rest ih =>
    intro part hp c hc
    simp only [splitOnChar] at hp
    by_cases ha : a = sep
    · rw [if_pos ha] at hp
      rcases List.mem_cons.mp hp with hp | hp
      · subst hp; simp at hc
      · exact List.mem_cons_of_mem _ (ih part hp c hc)
    · rw [if_neg ha] at hp
      cases hsp : splitOnChar sep rest with
      | nil => exact absurd hsp (splitOnChar_ne_nil sep rest)
      | cons h t =>
        rw [hsp] at hp
        rcases List.mem_cons.mp hp with hp | hp
        · subst hp
          rcases List.mem_cons.mp hc with hc | hc
          · subst hc; exact List.mem_cons_self _ _
          · refine List.mem_cons_of_mem _ (ih h ?_ c hc)
            rw [hsp]
            exact List.mem_cons_self _ _
        · refine List.mem_cons_of_mem _ (ih part ?_ c hc)
          rw [hsp]
          exact List.mem_cons_of_mem _ hp

/-- On a part without newline characters, the Python label regex agrees
with its exact-anchoring core. -/
theorem labelRegexMatch_eq_core_of_no_nl {part : List Char}
    (h : ∀ c ∈ part, c ≠ '\n') :
    labelRegexMatch part = matchesLabelCore part := by
  unfold labelRegexMatch
  congr 1
  unfold stripTrailingNl
  split
  case _ c hg =>
    have hcmem : c ∈ part := List.mem_of_mem_getLast? hg
    rw [if_neg (h c hcmem)]
  case _ => rfl

/-- Boolean bookkeeping for the per-label acceptance test. -/
theorem bool_label_aux : ∀ a b h m : Bool,
    ((!(a || b)) && m && !h) = !(a || b || h || !m) := by decide

/-- C5 counterexample: the claimed characterization of
`isValidDomainSyntax` fails at the concrete domain `"a\n.bc"`: the label
`"a\n"` violates the spec's start/end-alphanumeric label pattern, so the
claim requires the function to return false, yet the function returns
true because Python's `re` lets `$` match before the trailing newline. -/
theorem domainSyntax_newline_counterexample :
    is_valid_domain_syntax "a\n.bc" = true ∧ specDomainReject "a\n.bc" = true := by
  exact ⟨rfl, rfl⟩

/-- C5 (amended): for every domain containing no newline character,
`isValidDomainSyntax` returns false exactly when the total length exceeds
253, splitting on `.` yields fewer than two labels, or some label is
empty, longer than 63, contains `--`, or fails the start/end-alphanumeric
label pattern; and `classify("user@ex--ample.com")` yields `NO_DOMAIN`. -/
theorem domainSyntax_reject_characterization (domain : String)
    (hnl : ∀ c ∈ domain.toList, c ≠ '\n') :
    ( is_valid_domain_syntax domain = false ↔ specDomainReject domain = true) ∧
    (∀ mxResp aResp : DnsOutcome,
      (check_email "user@ex--ample.com" mxResp aResp).status = .no_domain) := by
  refine ⟨?_, fun mxResp aResp => rfl⟩
  have hparts : ∀ part ∈ splitOnChar '.' domain.toList,
      labelRegexMatch part = matchesLabelCore part := by
    intro part hp
    exact labelRegexMatch_eq_core_of_no_nl
      (fun c hc => hnl c (mem_of_mem_splitOnChar '.' domain.toList part hp c hc))
  have hpred : ∀ part ∈ splitOnChar '.' domain.toList,
      (!(part.isEmpty || decide (63 < part.length)) &&
        labelRegexMatch part && !(hasDoubleHyphen part)) =
      !(part.isEmpty || decide (63 < part.length) || hasDoubleHyphen part ||
        !(matchesLabelCore part)) := by
    intro part hp
    rw [hparts part hp, bool_label_aux]
  simp only [ is_valid_domain_syntax, specDomainReject]
  by_cases hlen : 253 < domain.length
  · simp [hlen]
  · rw [if_neg hlen, decide_eq_false hlen, Bool.false_or]
    by_cases hcnt : (splitOnChar '.' domain.toList).length < 2
    · rw [if_pos hcnt, decide_eq_true hcnt, Bool.true_or]
      simp
    · rw [if_neg hcnt, decide_eq_false hcnt, Bool.false_or]
      rw [List.all_eq_false, List.any_eq_true]
      constructor
      · rintro ⟨part, hp, hP⟩
        refine ⟨part, hp, ?_⟩
        have hP' : ¬((!(part.isEmpty || decide (63 < part.length)) &&
            labelRegexMatch part && !(hasDoubleHyphen part)) = true) := hP
        rw [hpred part hp] at hP'
        show (part.isEmpty || decide (63 < part.length) || hasDoubleHyphen part ||
          !(matchesLabelCore part)) = true
        cases hb : (part.isEmpty || decide (63 < part.length) || hasDoubleHyphen part ||
            !(matchesLabelCore part)) with
        | true => rfl
        | false => exact absurd (by rw [hb]; rfl) hP'
      · rintro ⟨part, hp, hQ⟩
        refine ⟨part, hp, ?_⟩
        have hQ' : (part.isEmpty || decide (63 < part.length) || hasDoubleHyphen part ||
            !(matchesLabelCore part)) = true := hQ
        show ¬((!(part.isEmpty || decide (63 < part.length)) &&
          labelRegexMatch part && !(hasDoubleHyphen part)) = true)
        rw [hpred part hp]
        intro hcon
        rw [hQ'] at hcon
        simp at hcon

/-- Witness for the amended C5 at the spec's Example 2 domain. -/
theorem domainSyntax_reject_characterization_witness :
    (∀ c ∈ "ex--ample.com".toList, c ≠ '\n') ∧
    (( is_valid_domain_syntax "ex--ample.com" = false ↔
      specDomainReject "ex--ample.com" = true) ∧
     (∀ mxResp aResp : DnsOutcome,
       (check_email "user@ex--ample.com" mxResp aResp).status = .no_domain)) :=
  ⟨by decide, domainSyntax_reject_characterization "ex--ample.com" (by decide)⟩
